import Mathlib

/-
  Verification of the property mass-matrix subsystem of
  `SimPEG/base/pde_simulation.py` (shallow embedding over ℚ).

  * `DArr` models dynamically shaped numpy arrays of rationals, together with
    the `Zero` sentinel of `discretize.utils` (an explicit "no contribution"
    value) and an `err` value standing for a raised shape error.
  * `inner_mat_mul_op` models the module-level helper `__inner_mat_mul_op`.
  * `PropSim` models the data read by the methods that the decorator
    `with_property_mass_matrices` installs for one physical property;
    `Mcc_prop`, `MccDeriv_prop`, ... model those methods value-wise (the
    stash-attribute cache is modeled separately by `CacheState`).
  * `CondSim` models the combined edge matrices of
    `BaseConductancePDESimulation`.
  * `CacheState` models the stash-attribute cache: stash names map to object
    identities (ℕ tags), reading an unset slot stores a fresh tag (the
    `getattr(...) is None` / `setattr` memoization pattern), and the
    `__setattr__` overrides clear the registered stash-name lists by
    `delattr`.

  Modeling conventions: arrays have rank ≤ 3; `np.squeeze` is modeled as
  removing size-1 axes of rank-2 and rank-3 arrays (leading axes of rank-1
  arrays are assumed to have size ≥ 2, which every theorem below imposes on
  its dimensions); the rank-3 elementwise product is modeled exactly for the
  shape combination `u[:, None, :] * w[:, :, None]`, the only one reachable
  inside `__inner_mat_mul_op`.
-/

/-- A dynamically shaped numpy array of rationals, the `Zero` sentinel of
`discretize.utils`, or a shape error. -/
inductive DArr : Type where
  | zero : DArr
  | err : DArr
  | vec : (n : ℕ) → (Fin n → ℚ) → DArr
  | mat : (n k : ℕ) → (Matrix (Fin n) (Fin k) ℚ) → DArr
  | cube : (n k l : ℕ) → (Fin n → Fin k → Fin l → ℚ) → DArr

/-- Number of axes of the array, `a.ndim` in numpy. -/
def DArr.ndim : DArr → ℕ
  | .vec _ _ => 1
  | .mat _ _ _ => 2
  | .cube _ _ _ _ => 3
  | _ => 0

/-- `a.shape[1]` (0 for rank < 2). -/
def DArr.axis1 : DArr → ℕ
  | .mat _ k _ => k
  | .cube _ k _ _ => k
  | _ => 0

/-- `a.shape[-1]`, the size of the trailing axis. -/
def DArr.lastAxis : DArr → ℕ
  | .vec n _ => n
  | .mat _ k _ => k
  | .cube _ _ l _ => l
  | _ => 0

/-- `np.squeeze` on arrays of rank ≥ 2: drop a size-1 axis.  Rank-1 arrays
are returned unchanged (their length is assumed ≥ 2 throughout). -/
def DArr.squeeze : DArr → DArr
  | .mat n k x =>
      if hk : k = 1 then .vec n (fun i => x i ⟨0, by omega⟩)
      else if hn : n = 1 then .vec k (fun j => x ⟨0, by omega⟩ j)
      else .mat n k x
  | .cube n k l x =>
      if hk : k = 1 then .mat n l (fun i j => x i ⟨0, by omega⟩ j)
      else if hl : l = 1 then .mat n k (fun i j => x i j ⟨0, by omega⟩)
      else .cube n k l x
  | a => a

/-- `x[:, None]`: view a rank-1 array as a one-column matrix. -/
def DArr.colVec : DArr → DArr
  | .vec n x => .mat n 1 (fun i _ => x i)
  | _ => .err

/-- `x[:, None, :]`: insert a size-1 middle axis into a rank-2 array. -/
def DArr.midInsert : DArr → DArr
  | .mat n k x => .cube n 1 k (fun i _ c => x i c)
  | _ => .err

/-- `x[:, :, None]`: insert a size-1 trailing axis into a rank-2 array. -/
def DArr.lastInsert : DArr → DArr
  | .mat n k x => .cube n k 1 (fun i j _ => x i j)
  | _ => .err

/-- `x.sum(axis=-1)`. -/
def DArr.sumLast : DArr → DArr
  | .mat n _ x => .vec n (fun i => ∑ c, x i c)
  | .cube n k _ x => .mat n k (fun i j => ∑ c, x i j c)
  | _ => .err

/-- `x.T` on a rank-2 array (scipy sparse transpose). -/
def DArr.transposeD : DArr → DArr
  | .mat n k x => .mat k n (fun j i => x i j)
  | _ => .err

/-- `-x`.  `discretize.utils.Zero` is closed under negation. -/
def DArr.neg : DArr → DArr
  | .zero => .zero
  | .err => .err
  | .vec n x => .vec n (fun i => -x i)
  | .mat n k x => .mat n k (fun i j => -x i j)
  | .cube n k l x => .cube n k l (fun i j c => -(x i j c))

/-- `isinstance(x, Zero)`. -/
def DArr.isZero : DArr → Bool
  | .zero => true
  | _ => false

/-- `isinstance(v, Zero)` for the optional argument `v` (`None` is not an
instance of `Zero`). -/
def optIsZero : Option DArr → Bool
  | some a => a.isZero
  | none => false

/-- numpy elementwise product `x * y` with broadcasting, for the shape
combinations reachable inside `__inner_mat_mul_op`: equal-length vectors,
matrices broadcast along the trailing axis, and the rank-3 combination
`(n,1,k) * (n,c,1)`.  Incompatible shapes give `err`. -/
def dmul : DArr → DArr → DArr
  | .vec p x, .vec q y =>
      if h : q = p then .vec p (fun i => x i * y ⟨i.val, by rw [h]; exact i.isLt⟩)
      else .err
  | .mat p k x, .mat q l y =>
      if h : q = p then
        if hl : l = k then
          .mat p k (fun i j =>
            x i j * y ⟨i.val, by rw [h]; exact i.isLt⟩ ⟨j.val, by rw [hl]; exact j.isLt⟩)
        else if hl1 : l = 1 then
          .mat p k (fun i j =>
            x i j * y ⟨i.val, by rw [h]; exact i.isLt⟩ ⟨0, by rw [hl1]; exact Nat.one_pos⟩)
        else if hk1 : k = 1 then
          .mat p l (fun i j =>
            x i ⟨0, by rw [hk1]; exact Nat.one_pos⟩ * y ⟨i.val, by rw [h]; exact i.isLt⟩ j)
        else .err
      else .err
  | .cube p 1 b x, .cube q c 1 y =>
      if h : q = p then
        .cube p c b (fun i j c2 => x i 0 c2 * y ⟨i.val, by rw [h]; exact i.isLt⟩ j 0)
      else .err
  | _, _ => .err

/-- `M @ x` for a statically shaped sparse matrix `M` and a dynamically
shaped `x` (vector or matrix); `Zero` is absorbing, mismatched shapes give
`err`. -/
def mulMatD {a b : ℕ} (M : Matrix (Fin a) (Fin b) ℚ) : DArr → DArr
  | .zero => .zero
  | .vec p x =>
      if h : p = b then .vec a (fun i => ∑ j, M i j * x ⟨j.val, by rw [h]; exact j.isLt⟩)
      else .err
  | .mat p q x =>
      if h : p = b then .mat a q (fun i c => ∑ j, M i j * x ⟨j.val, by rw [h]; exact j.isLt⟩ c)
      else .err
  | _ => .err

/-- The module-level helper `__inner_mat_mul_op(M, u, v=None, adjoint=False)`
of `SimPEG/base/pde_simulation.py` (lines 9–38), transliterated branch by
branch.  `M` is the cached derivative matrix, `u` the field(s), `v` the
optional direction(s). -/
def inner_mat_mul_op {n m : ℕ} (M : Matrix (Fin n) (Fin m) ℚ) (u0 : DArr)
    (v0 : Option DArr) (adjoint : Bool) : DArr :=
  let u1 := u0.squeeze
  match v0 with
  | some w =>
    let v1 := if 1 < w.ndim then w.squeeze else w
    let uv : DArr × DArr :=
      if 1 < u1.ndim then (u1, if v1.ndim = 1 then v1.colVec else v1)
      else (if 1 < v1.ndim then u1.colVec else u1, v1)
    let u2 := uv.1
    let v2 := uv.2
    let u3 := if 2 < v2.ndim then u2.midInsert else u2
    if adjoint then
      if 1 < u3.ndim ∧ 1 < u3.lastAxis then mulMatD M.transpose (dmul u3 v2).sumLast
      else mulMatD M.transpose (dmul u3 v2)
    else
      if 1 < u3.ndim ∧ 1 < u3.axis1 then
        ((dmul u3.midInsert ((mulMatD M v2).lastInsert)).squeeze)
      else dmul u3 (mulMatD M v2)
  | none =>
    let UM : DArr :=
      match u1 with
      | .vec p x =>
          if h : p = n then
            .mat n m (fun i j => x ⟨i.val, by rw [h]; exact i.isLt⟩ * M i j)
          else .err
      | .mat p k x =>
          if h : p = n then
            .mat (k * n) m (fun r j =>
              x ⟨(Fin.modNat r).val, by rw [h]; exact (Fin.modNat r).isLt⟩ (Fin.divNat r)
                * M (Fin.modNat r) j)
          else .err
      | _ => .err
    if adjoint then UM.transposeD else UM

/-- The data read by the methods that `with_property_mass_matrices(prop)`
installs on a simulation class, for one physical property: the mesh
quantities (`cell_volumes`, `aveN2CC`, the face/edge inner-product builders
and their derivative builders evaluated at unit arguments) and the property
binding (current values `prop`, whether `propMap` is set, and the map
derivative `propDeriv`).
Dimensions: `nC` cells, `nN` nodes, `nF` faces, `nE` edges, `nM` model
parameters. -/
structure PropSim (nC nN nF nE nM : ℕ) : Type where
  cell_volumes : Fin nC → ℚ
  aveN2CC : Matrix (Fin nC) (Fin nN) ℚ
  get_face_inner_product : (Fin nC → ℚ) → Matrix (Fin nF) (Fin nF) ℚ
  get_face_inner_product_inv : (Fin nC → ℚ) → Matrix (Fin nF) (Fin nF) ℚ
  get_edge_inner_product : (Fin nC → ℚ) → Matrix (Fin nE) (Fin nE) ℚ
  get_edge_inner_product_inv : (Fin nC → ℚ) → Matrix (Fin nE) (Fin nE) ℚ
  face_ip_deriv : Matrix (Fin nF) (Fin nC) ℚ
  edge_ip_deriv : Matrix (Fin nE) (Fin nC) ℚ
  prop : Fin nC → ℚ
  propMap : Bool
  propDeriv : Matrix (Fin nC) (Fin nM) ℚ

variable {nC nN nF nE nM : ℕ}

/-- `MccProp`: cell-center property inner-product matrix,
`sp.diags(self.mesh.cell_volumes * prop)`. -/
def Mcc_prop (s : PropSim nC nN nF nE nM) : Matrix (Fin nC) (Fin nC) ℚ :=
  Matrix.diagonal (fun i => s.cell_volumes i * s.prop i)

/-- `MnProp`: node property inner-product matrix,
`sp.diags(self.mesh.aveN2CC.T * (vol * prop))`. -/
def Mn_prop (s : PropSim nC nN nF nE nM) : Matrix (Fin nN) (Fin nN) ℚ :=
  Matrix.diagonal (s.aveN2CC.transpose.mulVec (fun i => s.cell_volumes i * s.prop i))

/-- `MfProp`: face property inner-product matrix,
`self.mesh.get_face_inner_product(model=prop)`. -/
def Mf_prop (s : PropSim nC nN nF nE nM) : Matrix (Fin nF) (Fin nF) ℚ :=
  s.get_face_inner_product s.prop

/-- `MeProp`: edge property inner-product matrix,
`self.mesh.get_edge_inner_product(model=prop)`. -/
def Me_prop (s : PropSim nC nN nF nE nM) : Matrix (Fin nE) (Fin nE) ℚ :=
  s.get_edge_inner_product s.prop

/-- `MccPropI`: `sp.diags(1.0 / (self.mesh.cell_volumes * prop))`. -/
def MccI_prop (s : PropSim nC nN nF nE nM) : Matrix (Fin nC) (Fin nC) ℚ :=
  Matrix.diagonal (fun i => 1 / (s.cell_volumes i * s.prop i))

/-- `MnPropI`: `sp.diags(1.0 / (self.mesh.aveN2CC.T * (vol * prop)))`. -/
def MnI_prop (s : PropSim nC nN nF nE nM) : Matrix (Fin nN) (Fin nN) ℚ :=
  Matrix.diagonal
    (fun j => 1 / s.aveN2CC.transpose.mulVec (fun i => s.cell_volumes i * s.prop i) j)

/-- `MfPropI`: `get_face_inner_product(model=prop, invert_matrix=True)`. -/
def MfI_prop (s : PropSim nC nN nF nE nM) : Matrix (Fin nF) (Fin nF) ℚ :=
  s.get_face_inner_product_inv s.prop

/-- `MePropI`: `get_edge_inner_product(model=prop, invert_matrix=True)`. -/
def MeI_prop (s : PropSim nC nN nF nE nM) : Matrix (Fin nE) (Fin nE) ℚ :=
  s.get_edge_inner_product_inv s.prop

/-- `MccPropDeriv(u, v=None, adjoint=False)`: guard on the missing map, guard
on `Zero` operands, then `__inner_mat_mul_op` with the cached matrix
`sp.diags(cell_volumes) * propDeriv`. -/
def MccDeriv_prop (s : PropSim nC nN nF nE nM) (u : DArr) (v : Option DArr)
    (adjoint : Bool) : DArr :=
  if s.propMap = false then .zero
  else if (u.isZero || optIsZero v) = true then .zero
  else inner_mat_mul_op (Matrix.diagonal s.cell_volumes * s.propDeriv) u v adjoint

/-- `MnPropDeriv`: cached matrix `aveN2CC.T * sp.diags(cell_volumes) * propDeriv`. -/
def MnDeriv_prop (s : PropSim nC nN nF nE nM) (u : DArr) (v : Option DArr)
    (adjoint : Bool) : DArr :=
  if s.propMap = false then .zero
  else if (u.isZero || optIsZero v) = true then .zero
  else inner_mat_mul_op
    (s.aveN2CC.transpose * Matrix.diagonal s.cell_volumes * s.propDeriv) u v adjoint

/-- `MfPropDeriv`: cached matrix
`get_face_inner_product_deriv(ones(n_cells))(ones(n_faces)) * propDeriv`. -/
def MfDeriv_prop (s : PropSim nC nN nF nE nM) (u : DArr) (v : Option DArr)
    (adjoint : Bool) : DArr :=
  if s.propMap = false then .zero
  else if (u.isZero || optIsZero v) = true then .zero
  else inner_mat_mul_op (s.face_ip_deriv * s.propDeriv) u v adjoint

/-- `MePropDeriv`: cached matrix
`get_edge_inner_product_deriv(ones(n_cells))(ones(n_edges)) * propDeriv`. -/
def MeDeriv_prop (s : PropSim nC nN nF nE nM) (u : DArr) (v : Option DArr)
    (adjoint : Bool) : DArr :=
  if s.propMap = false then .zero
  else if (u.isZero || optIsZero v) = true then .zero
  else inner_mat_mul_op (s.edge_ip_deriv * s.propDeriv) u v adjoint

/-- `MccPropIDeriv(u, v, adjoint)`: after the two guards, the source sets
`u = MI @ (MI @ -u)` and delegates to `MccPropDeriv`. -/
def MccIDeriv_prop (s : PropSim nC nN nF nE nM) (u : DArr) (v : Option DArr)
    (adjoint : Bool) : DArr :=
  if s.propMap = false then .zero
  else if (u.isZero || optIsZero v) = true then .zero
  else MccDeriv_prop s (mulMatD (MccI_prop s) (mulMatD (MccI_prop s) u.neg)) v adjoint

/-- `MnPropIDeriv`. -/
def MnIDeriv_prop (s : PropSim nC nN nF nE nM) (u : DArr) (v : Option DArr)
    (adjoint : Bool) : DArr :=
  if s.propMap = false then .zero
  else if (u.isZero || optIsZero v) = true then .zero
  else MnDeriv_prop s (mulMatD (MnI_prop s) (mulMatD (MnI_prop s) u.neg)) v adjoint

/-- `MfPropIDeriv`. -/
def MfIDeriv_prop (s : PropSim nC nN nF nE nM) (u : DArr) (v : Option DArr)
    (adjoint : Bool) : DArr :=
  if s.propMap = false then .zero
  else if (u.isZero || optIsZero v) = true then .zero
  else MfDeriv_prop s (mulMatD (MfI_prop s) (mulMatD (MfI_prop s) u.neg)) v adjoint

/-- `MePropIDeriv`. -/
def MeIDeriv_prop (s : PropSim nC nN nF nE nM) (u : DArr) (v : Option DArr)
    (adjoint : Bool) : DArr :=
  if s.propMap = false then .zero
  else if (u.isZero || optIsZero v) = true then .zero
  else MeDeriv_prop s (mulMatD (MeI_prop s) (mulMatD (MeI_prop s) u.neg)) v adjoint

/-- The data read by the combined edge-matrix members of
`BaseConductancePDESimulation`: the bulk conductivity `sigma` (cell-based),
the surface conductance `tau` (face-based), the line conductance `kappa`
(edge-based) with its reciprocal flag `kappaiMap`, the mesh edge
inner-product builders for the three supports, the surface derivative
builder evaluated at unit arguments, and `sdinv` (the sparse-diagonal
inverse from `discretize.utils`, kept abstract as the mesh is). -/
structure CondSim (nC nF nE nM : ℕ) : Type where
  get_edge_inner_product : (Fin nC → ℚ) → Matrix (Fin nE) (Fin nE) ℚ
  get_edge_inner_product_surface : (Fin nF → ℚ) → Matrix (Fin nE) (Fin nE) ℚ
  get_edge_inner_product_line : (Fin nE → ℚ) → Matrix (Fin nE) (Fin nE) ℚ
  sdinv : Matrix (Fin nE) (Fin nE) ℚ → Matrix (Fin nE) (Fin nE) ℚ
  edge_ip_surface_deriv : Matrix (Fin nE) (Fin nF) ℚ
  sigma : Fin nC → ℚ
  sigmaMap : Bool
  tau : Fin nF → ℚ
  tauMap : Bool
  tauDeriv : Matrix (Fin nF) (Fin nM) ℚ
  kappa : Fin nE → ℚ
  kappaMap : Bool
  kappaiMap : Bool

variable {nCc nFc nEc nMc : ℕ}

/-- `MeSigma` on the conductance simulation (installed by
`with_property_mass_matrices("sigma")` on the electrical base). -/
def MeSigma (s : CondSim nCc nFc nEc nMc) : Matrix (Fin nEc) (Fin nEc) ℚ :=
  s.get_edge_inner_product s.sigma

/-- `_MeTau`: `get_edge_inner_product_surface(model=tau)` (installed by
`with_surface_property_mass_matrices("tau")`). -/
def MeTau (s : CondSim nCc nFc nEc nMc) : Matrix (Fin nEc) (Fin nEc) ℚ :=
  s.get_edge_inner_product_surface s.tau

/-- `_MeKappa`: `get_edge_inner_product_line(model=kappa)` (installed by
`with_line_property_mass_matrices("kappa")`). -/
def MeKappa (s : CondSim nCc nFc nEc nMc) : Matrix (Fin nEc) (Fin nEc) ℚ :=
  s.get_edge_inner_product_line s.kappa

/-- `_MeSigmaTauKappa = self.MeSigma + self._MeTau + self._MeKappa`. -/
def MeSigmaTauKappa (s : CondSim nCc nFc nEc nMc) : Matrix (Fin nEc) (Fin nEc) ℚ :=
  MeSigma s + MeTau s + MeKappa s

/-- `_MeSigmaTauKappaI = sdinv(self.MeSigma + self._MeTau + self._MeKappa)`. -/
def MeSigmaTauKappaI (s : CondSim nCc nFc nEc nMc) : Matrix (Fin nEc) (Fin nEc) ℚ :=
  s.sdinv (MeSigma s + MeTau s + MeKappa s)

/-- `_MeTauDeriv` (installed by `with_surface_property_mass_matrices("tau")`):
guards, then `__inner_mat_mul_op` with the cached matrix
`get_edge_inner_product_surface_deriv(ones(n_faces))(ones(n_edges)) * tauDeriv`. -/
def MeTauDeriv (s : CondSim nCc nFc nEc nMc) (u : DArr) (v : Option DArr)
    (adjoint : Bool) : DArr :=
  if s.tauMap = false then .zero
  else if (u.isZero || optIsZero v) = true then .zero
  else inner_mat_mul_op (s.edge_ip_surface_deriv * s.tauDeriv) u v adjoint

/-- `_MeSigmaTauKappaDeriv`: "Only derivative wrt to tau at the moment" —
delegates to `_MeTauDeriv`. -/
def MeSigmaTauKappaDeriv (s : CondSim nCc nFc nEc nMc) (u : DArr)
    (v : Option DArr) (adjoint : Bool) : DArr :=
  MeTauDeriv s u v adjoint

/-- `_MeSigmaTauKappaIDeriv`: guard on `tauMap`, guard on `Zero` operands,
then `u = MI @ (MI @ -u)` with the combined inverse and delegation to
`_MeTauDeriv`. -/
def MeSigmaTauKappaIDeriv (s : CondSim nCc nFc nEc nMc) (u : DArr)
    (v : Option DArr) (adjoint : Bool) : DArr :=
  if s.tauMap = false then .zero
  else if (u.isZero || optIsZero v) = true then .zero
  else MeTauDeriv s
    (mulMatD (MeSigmaTauKappaI s) (mulMatD (MeSigmaTauKappaI s) u.neg)) v adjoint

/-- The stash-attribute cache of one simulation object: stash names map to
the identity (an ℕ tag) of the object stored there, and `nextId` is a
source of fresh identities.  The matrices that the getters would stash are
abstracted to their object identities, which is what the caching claims are
about. -/
structure CacheState : Type where
  slots : String → Option ℕ
  nextId : ℕ

/-- `getattr(self, name, None)` for a stash attribute. -/
def lookupSlot (s : CacheState) (a : String) : Option ℕ := s.slots a

/-- The memoizing getter pattern shared by every cached matrix property:
`if getattr(self, stash_name, None) is None: setattr(self, stash_name, build());
return getattr(self, stash_name)`.  Building is modeled as allocating a
fresh object identity. -/
def readSlot (s : CacheState) (a : String) : ℕ × CacheState :=
  match s.slots a with
  | some o => (o, s)
  | none =>
      (s.nextId,
       ⟨fun b => if b = a then some s.nextId else s.slots b, s.nextId + 1⟩)

/-- `for mat in L: if hasattr(self, mat): delattr(self, mat)`. -/
def clearSlots (s : CacheState) (L : List String) : CacheState :=
  ⟨fun b => if b ∈ L then none else s.slots b, s.nextId⟩

/-- All stored object identities are below `nextId` (allocation invariant). -/
def WFCache (s : CacheState) : Prop :=
  ∀ a o, s.slots a = some o → o < s.nextId

/-- `_clear_on_<prop>_update` from `with_property_mass_matrices` (lines
329–345): the four forward stashes, four inverse stashes and four
derivative stashes of the property.  `arg` is the capitalized property
name. -/
def clear_on_prop_update (arg : String) : List String :=
  ["_Mcc_" ++ arg, "_Mn_" ++ arg, "_Mf_" ++ arg, "_Me_" ++ arg,
   "_MccI_" ++ arg, "_MnI_" ++ arg, "_MfI_" ++ arg, "_MeI_" ++ arg,
   "_Mcc_" ++ arg ++ "_deriv", "_Mn_" ++ arg ++ "_deriv",
   "_Mf_" ++ arg ++ "_deriv", "_Me_" ++ arg ++ "_deriv"]

/-- `_clear_on_<prop>_update` from `with_surface_property_mass_matrices`. -/
def clear_on_surface_prop_update (arg : String) : List String :=
  ["__Mf_" ++ arg, "__Me_" ++ arg, "__MfI_" ++ arg, "__MeI_" ++ arg,
   "__Mf_" ++ arg ++ "_deriv", "__Me_" ++ arg ++ "_deriv"]

/-- `_clear_on_<prop>_update` from `with_line_property_mass_matrices`. -/
def clear_on_line_prop_update (arg : String) : List String :=
  ["__Me_" ++ arg, "__MeI_" ++ arg, "__Me_" ++ arg ++ "_deriv"]

/-- `BaseElectricalPDESimulation.__setattr__` (lines 731–736): a write to
`sigma` or `rho` clears the sigma and rho stash lists; the written value is
not inspected.  (The value store itself is outside the cache model.) -/
def elec_setattr {α : Type} (s : CacheState) (name : String) (_value : α) :
    CacheState :=
  if name = "sigma" ∨ name = "rho" then
    clearSlots s (clear_on_prop_update "Sigma" ++ clear_on_prop_update "Rho")
  else s

/-- Modelled from the spec: the property/map descriptor layer (`SimPEG.props`,
not under `src/`) handles assignment of a property's map; per the spec,
"Writing a property's value (or its map) clears every slot in its registered
invalidation list, unconditionally".  Map writes are modeled as triggering
the same clearing as value writes; other names fall through to the source's
`__setattr__`. -/
def elec_setattr_with_maps {α : Type} (s : CacheState) (name : String)
    (value : α) : CacheState :=
  if name = "sigmaMap" ∨ name = "rhoMap" then
    clearSlots s (clear_on_prop_update "Sigma" ++ clear_on_prop_update "Rho")
  else elec_setattr s name value

/-- `BaseConductancePDESimulation.__setattr__` (lines 815–833): a write to
any of `sigma`, `rho`, `tau`, `kappa`, `kappai` clears the stash lists of
all five properties plus the three combined-matrix stashes. -/
def cond_setattr {α : Type} (s : CacheState) (name : String) (_value : α) :
    CacheState :=
  if name ∈ ["sigma", "rho", "tau", "kappa", "kappai"] then
    clearSlots s
      (clear_on_prop_update "Sigma" ++ clear_on_prop_update "Rho" ++
       clear_on_surface_prop_update "Tau" ++ clear_on_line_prop_update "Kappa" ++
       clear_on_line_prop_update "Kappai" ++
       ["__MeSigmaTauKappa", "__MeSigmaTauKappaI", "__MeSigmaTauKappaDeriv"])
  else s

/-- `np.vdot`-style pairing of two arrays of the same shape (the inner
product used to state adjointness); 0 on mismatched shapes. -/
def dotD : DArr → DArr → ℚ
  | .vec p x, .vec q y =>
      if h : q = p then ∑ i, x i * y ⟨i.val, by rw [h]; exact i.isLt⟩ else 0
  | .mat p k x, .mat q l y =>
      if h : q = p ∧ l = k then
        ∑ i, ∑ j, x i j * y ⟨i.val, by rw [h.1]; exact i.isLt⟩
          ⟨j.val, by rw [h.2]; exact j.isLt⟩
      else 0
  | _, _ => 0

/-- The concrete end-to-end mesh of the spec: 4 cells, unit volumes,
`sigma = [1, 2, 3, 4]`, identity map. -/
def sim4 : PropSim 4 4 4 4 4 where
  cell_volumes := ![1, 1, 1, 1]
  aveN2CC := 1
  get_face_inner_product := fun _ => 1
  get_face_inner_product_inv := fun _ => 1
  get_edge_inner_product := fun _ => 1
  get_edge_inner_product_inv := fun _ => 1
  face_ip_deriv := 1
  edge_ip_deriv := 1
  prop := ![1, 2, 3, 4]
  propMap := true
  propDeriv := 1

/-- Entry `j` of a rank-1 array (0 out of range or for other shapes). -/
def DArr.vecAt : DArr → ℕ → ℚ
  | .vec n x, j => if h : j < n then x ⟨j, h⟩ else 0
  | _, _ => 0

/-- The formula of the spec (§3), written from the spec's words: "for
inverse matrix `Mi`, its derivative operator is evaluated as
`−Mi · (D(forward) · (Mi · u))`" — here for the cell-center support,
forward mode. -/
def MccIDeriv_spec_formula {nC nN nF nE nM : ℕ} (s : PropSim nC nN nF nE nM)
    (u : DArr) (v : Option DArr) : DArr :=
  (mulMatD (MccI_prop s) (MccDeriv_prop s (mulMatD (MccI_prop s) u) v false)).neg

/-- The spec's §3 formula for the node support, forward mode. -/
def MnIDeriv_spec_formula {nC nN nF nE nM : ℕ} (s : PropSim nC nN nF nE nM)
    (u : DArr) (v : Option DArr) : DArr :=
  (mulMatD (MnI_prop s) (MnDeriv_prop s (mulMatD (MnI_prop s) u) v false)).neg

/-- The spec's §3 formula for the edge support, forward mode. -/
def MeIDeriv_spec_formula {nC nN nF nE nM : ℕ} (s : PropSim nC nN nF nE nM)
    (u : DArr) (v : Option DArr) : DArr :=
  (mulMatD (MeI_prop s) (MeDeriv_prop s (mulMatD (MeI_prop s) u) v false)).neg

/-- A 2-cell/2-edge simulation whose (mesh-provided) inverse edge inner
product is not diagonal; the derivative matrices are identities. -/
def cexSim : PropSim 2 2 2 2 2 where
  cell_volumes := ![1, 1]
  aveN2CC := 1
  get_face_inner_product := fun _ => 1
  get_face_inner_product_inv := fun _ => 1
  get_edge_inner_product := fun _ => 1
  get_edge_inner_product_inv := fun _ => !![1, 1; 0, 1]
  face_ip_deriv := 1
  edge_ip_deriv := 1
  prop := ![1, 1]
  propMap := true
  propDeriv := 1

theorem squeeze_mat_of_ne {n k : ℕ} (h1 : k ≠ 1) (h2 : n ≠ 1)
    (x : Matrix (Fin n) (Fin k) ℚ) : (DArr.mat n k x).squeeze = .mat n k x := by
  simp [DArr.squeeze, h1, h2]

/-- Forward mode, single field and single direction:
`__inner_mat_mul_op(M, u, v)` is `u ⊙ (M·v)`. -/
theorem immo_fwd_vec_vec {n m : ℕ} (M : Matrix (Fin n) (Fin m) ℚ)
    (u : Fin n → ℚ) (v : Fin m → ℚ) :
    inner_mat_mul_op M (.vec n u) (some (.vec m v)) false
      = .vec n (fun i => u i * ∑ j, M i j * v j) := by
  simp [inner_mat_mul_op, DArr.squeeze, DArr.ndim, dmul, mulMatD, Fin.eta]

/-- Adjoint mode, single field and single direction:
`__inner_mat_mul_op(M, u, v, adjoint=True)` is `Mᵗ·(u ⊙ v)`. -/
theorem immo_adj_vec_vec {n m : ℕ} (M : Matrix (Fin n) (Fin m) ℚ)
    (u : Fin n → ℚ) (w : Fin n → ℚ) :
    inner_mat_mul_op M (.vec n u) (some (.vec n w)) true
      = .vec m (fun j => ∑ i, M i j * (u i * w i)) := by
  simp [inner_mat_mul_op, DArr.squeeze, DArr.ndim, dmul, mulMatD, Fin.eta,
    Matrix.transpose]

/-- Forward mode, multiple fields (columns of `u`) and a single direction:
column `c` of the result is `u[:, c] ⊙ (M·v)`. -/
theorem immo_fwd_mat_vec {n m k : ℕ} (M : Matrix (Fin n) (Fin m) ℚ)
    (U : Matrix (Fin n) (Fin k) ℚ) (v : Fin m → ℚ) (hn : 2 ≤ n) (hk : 2 ≤ k) :
    inner_mat_mul_op M (.mat n k U) (some (.vec m v)) false
      = .mat n k (fun i c => U i c * ∑ j, M i j * v j) := by
  have h1 : k ≠ 1 := by omega
  have h2 : n ≠ 1 := by omega
  simp [inner_mat_mul_op, squeeze_mat_of_ne h1 h2, DArr.ndim, DArr.colVec,
    DArr.midInsert, DArr.lastInsert, DArr.axis1, DArr.lastAxis, dmul, mulMatD,
    DArr.squeeze, h1, h2, Fin.eta]

/-- Adjoint mode, multiple fields with matching multiple directions:
the result is `Mᵗ · (u ⊙ v).sum(axis=-1)`. -/
theorem immo_adj_mat_mat {n m k : ℕ} (M : Matrix (Fin n) (Fin m) ℚ)
    (U W : Matrix (Fin n) (Fin k) ℚ) (hn : 2 ≤ n) (hk : 2 ≤ k) :
    inner_mat_mul_op M (.mat n k U) (some (.mat n k W)) true
      = .vec m (fun j => ∑ i, M i j * ∑ c, U i c * W i c) := by
  have h1 : k ≠ 1 := by omega
  have h2 : n ≠ 1 := by omega
  have hk1 : 1 < k := by omega
  simp [inner_mat_mul_op, squeeze_mat_of_ne h1 h2, DArr.ndim, DArr.colVec,
    DArr.midInsert, DArr.lastInsert, DArr.axis1, DArr.lastAxis, dmul, mulMatD,
    DArr.sumLast, h1, h2, hk1, Fin.eta, Matrix.transpose]

/-- Adjoint mode, multiple fields with a single direction: the direction is
broadcast across the columns of `u` before the trailing-axis sum. -/
theorem immo_adj_mat_vec {n m k : ℕ} (M : Matrix (Fin n) (Fin m) ℚ)
    (U : Matrix (Fin n) (Fin k) ℚ) (w : Fin n → ℚ) (hn : 2 ≤ n) (hk : 2 ≤ k) :
    inner_mat_mul_op M (.mat n k U) (some (.vec n w)) true
      = .vec m (fun j => ∑ i, M i j * ∑ c, U i c * w i) := by
  have h1 : k ≠ 1 := by omega
  have h2 : n ≠ 1 := by omega
  have h3 : (1 : ℕ) ≠ k := by omega
  have hk1 : 1 < k := by omega
  simp [inner_mat_mul_op, squeeze_mat_of_ne h1 h2, DArr.ndim, DArr.colVec,
    DArr.midInsert, DArr.lastInsert, DArr.axis1, DArr.lastAxis, dmul, mulMatD,
    DArr.sumLast, h1, h2, h3, hk1, Fin.eta, Matrix.transpose]

theorem isZero_iff (a : DArr) : a.isZero = true ↔ a = .zero := by
  cases a <;> simp [DArr.isZero]

theorem mulMatD_vec {a b : ℕ} (M : Matrix (Fin a) (Fin b) ℚ) (x : Fin b → ℚ) :
    mulMatD M (.vec b x) = .vec a (fun i => ∑ j, M i j * x j) := by
  simp [mulMatD, Fin.eta]

theorem mulMatD_diagonal_vec {a : ℕ} (d : Fin a → ℚ) (x : Fin a → ℚ) :
    mulMatD (Matrix.diagonal d) (.vec a x) = .vec a (fun i => d i * x i) := by
  rw [mulMatD_vec]
  congr 1
  funext i
  simp [Matrix.diagonal, Matrix.of_apply, ite_mul, Finset.sum_ite_eq]

/-- The scalar rearrangement behind adjointness of `u ⊙ (M·v)`. -/
theorem dot_rearrange {n m : ℕ} (M : Matrix (Fin n) (Fin m) ℚ)
    (u w : Fin n → ℚ) (v : Fin m → ℚ) :
    ∑ i, w i * (u i * ∑ j, M i j * v j)
      = ∑ j, (∑ i, M i j * (u i * w i)) * v j := by
  simp_rw [Finset.mul_sum, Finset.sum_mul]
  rw [Finset.sum_comm]
  exact Finset.sum_congr rfl (fun i _ =>
    Finset.sum_congr rfl (fun j _ => by ring))

theorem dot_rearrange_multi {n m k : ℕ} (M : Matrix (Fin n) (Fin m) ℚ)
    (U W : Matrix (Fin n) (Fin k) ℚ) (v : Fin m → ℚ) :
    ∑ i, ∑ c, W i c * (U i c * ∑ j, M i j * v j)
      = ∑ j, (∑ i, M i j * ∑ c, U i c * W i c) * v j := by
  have key : ∀ i : Fin n, (∑ c, W i c * (U i c * ∑ j, M i j * v j))
      = (∑ c, U i c * W i c) * (1 * ∑ j, M i j * v j) := by
    intro i
    rw [Finset.sum_mul]
    exact Finset.sum_congr rfl (fun c _ => by ring)
  rw [Finset.sum_congr rfl (fun i _ => key i)]
  have h := dot_rearrange M (fun _ => 1) (fun i => ∑ c, U i c * W i c) v
  simpa using h

/-- Adjointness of `__inner_mat_mul_op` for a single field. -/
theorem immo_adjoint_single {n m : ℕ} (M : Matrix (Fin n) (Fin m) ℚ)
    (u w : Fin n → ℚ) (v : Fin m → ℚ) :
    dotD (.vec n w) (inner_mat_mul_op M (.vec n u) (some (.vec m v)) false)
      = dotD (inner_mat_mul_op M (.vec n u) (some (.vec n w)) true) (.vec m v) := by
  rw [immo_fwd_vec_vec, immo_adj_vec_vec]
  simp [dotD, Fin.eta]
  exact dot_rearrange M u w v

/-- Adjointness of `__inner_mat_mul_op` for multiple fields with a single
forward direction and matching multi-column adjoint input. -/
theorem immo_adjoint_multi {n m k : ℕ} (M : Matrix (Fin n) (Fin m) ℚ)
    (U W : Matrix (Fin n) (Fin k) ℚ) (v : Fin m → ℚ)
    (hn : 2 ≤ n) (hk : 2 ≤ k) :
    dotD (.mat n k W) (inner_mat_mul_op M (.mat n k U) (some (.vec m v)) false)
      = dotD (inner_mat_mul_op M (.mat n k U) (some (.mat n k W)) true) (.vec m v) := by
  rw [immo_fwd_mat_vec M U v hn hk, immo_adj_mat_mat M U W hn hk]
  simp [dotD, Fin.eta]
  exact dot_rearrange_multi M U W v

/-- C1.  For every support `S` and property `P` with a model map, the forward
and adjoint derivative evaluations are adjoint: `⟨w, D(v)⟩ = ⟨Dᵗ(w), v⟩`, for
a single field (single column) and for multiple columns (multiple right-hand
sides), stated for an arbitrary cached derivative matrix `M` (covering every
support) and instantiated on the cell-center, node, face and edge derivative
methods. -/
theorem claim_C1_adjoint_identity (n m k nN2 nF2 nE2 : ℕ)
    (hn : 2 ≤ n) (hm : 2 ≤ m) (hk : 2 ≤ k)
    (M : Matrix (Fin n) (Fin m) ℚ) (u w : Fin n → ℚ) (v : Fin m → ℚ)
    (U W : Matrix (Fin n) (Fin k) ℚ)
    (s : PropSim n nN2 nF2 nE2 m) (hmap : s.propMap = true)
    (un wn : Fin nN2 → ℚ) (uf wf : Fin nF2 → ℚ) (ue we : Fin nE2 → ℚ) :
    (dotD (.vec n w) (inner_mat_mul_op M (.vec n u) (some (.vec m v)) false)
      = dotD (inner_mat_mul_op M (.vec n u) (some (.vec n w)) true) (.vec m v))
    ∧ (dotD (.mat n k W) (inner_mat_mul_op M (.mat n k U) (some (.vec m v)) false)
      = dotD (inner_mat_mul_op M (.mat n k U) (some (.mat n k W)) true) (.vec m v))
    ∧ (dotD (.vec n w) (MccDeriv_prop s (.vec n u) (some (.vec m v)) false)
      = dotD (MccDeriv_prop s (.vec n u) (some (.vec n w)) true) (.vec m v))
    ∧ (dotD (.vec nN2 wn) (MnDeriv_prop s (.vec nN2 un) (some (.vec m v)) false)
      = dotD (MnDeriv_prop s (.vec nN2 un) (some (.vec nN2 wn)) true) (.vec m v))
    ∧ (dotD (.vec nF2 wf) (MfDeriv_prop s (.vec nF2 uf) (some (.vec m v)) false)
      = dotD (MfDeriv_prop s (.vec nF2 uf) (some (.vec nF2 wf)) true) (.vec m v))
    ∧ (dotD (.vec nE2 we) (MeDeriv_prop s (.vec nE2 ue) (some (.vec m v)) false)
      = dotD (MeDeriv_prop s (.vec nE2 ue) (some (.vec nE2 we)) true) (.vec m v)) := by
  refine ⟨immo_adjoint_single M u w v, immo_adjoint_multi M U W v hn hk, ?_, ?_, ?_, ?_⟩
  · simp only [MccDeriv_prop, hmap, DArr.isZero, optIsZero, Bool.or_self]
    norm_num
    exact immo_adjoint_single _ u w v
  · simp only [MnDeriv_prop, hmap, DArr.isZero, optIsZero, Bool.or_self]
    norm_num
    exact immo_adjoint_single _ un wn v
  · simp only [MfDeriv_prop, hmap, DArr.isZero, optIsZero, Bool.or_self]
    norm_num
    exact immo_adjoint_single _ uf wf v
  · simp only [MeDeriv_prop, hmap, DArr.isZero, optIsZero, Bool.or_self]
    norm_num
    exact immo_adjoint_single _ ue we v

/-- Witness for C1 at a concrete instance. -/
theorem claim_C1_witness :
    dotD (.vec 2 ![5, 6])
        (inner_mat_mul_op (!![1, 2; 3, 4] : Matrix (Fin 2) (Fin 2) ℚ)
          (.vec 2 ![1, 2]) (some (.vec 2 ![3, 4])) false)
      = dotD (inner_mat_mul_op (!![1, 2; 3, 4] : Matrix (Fin 2) (Fin 2) ℚ)
          (.vec 2 ![1, 2]) (some (.vec 2 ![5, 6])) true) (.vec 2 ![3, 4]) :=
  (claim_C1_adjoint_identity 2 2 2 2 2 2 (by decide) (by decide) (by decide)
    !![1, 2; 3, 4] ![1, 2] ![5, 6] ![3, 4] !![1, 0; 0, 1] !![1, 0; 0, 1]
    { cell_volumes := ![1, 1], aveN2CC := 1, get_face_inner_product := fun _ => 1,
      get_face_inner_product_inv := fun _ => 1, get_edge_inner_product := fun _ => 1,
      get_edge_inner_product_inv := fun _ => 1, face_ip_deriv := 1,
      edge_ip_deriv := 1, prop := ![1, 1], propMap := true, propDeriv := 1 }
    rfl ![1, 1] ![1, 1] ![1, 1] ![1, 1] ![1, 1] ![1, 1]).1

/-- C6.  With a direction `v` given, `__inner_mat_mul_op` computes:
forward single field and single direction `u ⊙ (M·v)`; multi-column `u` with
a single direction, column `c` is `u[:, c] ⊙ (M·v)` (`v` broadcast across
columns); adjoint mode `Mᵗ · (u ⊙ v)`, summed across the trailing axis when
`u` has more than one column (both with matching multi-column `v` and with a
single broadcast `v`). -/
theorem claim_C6_directional_formulas (n m k : ℕ) (hn : 2 ≤ n) (hk : 2 ≤ k)
    (M : Matrix (Fin n) (Fin m) ℚ) (u w : Fin n → ℚ) (v : Fin m → ℚ)
    (U W : Matrix (Fin n) (Fin k) ℚ) :
    (inner_mat_mul_op M (.vec n u) (some (.vec m v)) false
      = .vec n (fun i => u i * ∑ j, M i j * v j))
    ∧ (inner_mat_mul_op M (.mat n k U) (some (.vec m v)) false
      = .mat n k (fun i c => U i c * ∑ j, M i j * v j))
    ∧ (inner_mat_mul_op M (.vec n u) (some (.vec n w)) true
      = .vec m (fun j => ∑ i, M i j * (u i * w i)))
    ∧ (inner_mat_mul_op M (.mat n k U) (some (.mat n k W)) true
      = .vec m (fun j => ∑ i, M i j * ∑ c, U i c * W i c))
    ∧ (inner_mat_mul_op M (.mat n k U) (some (.vec n w)) true
      = .vec m (fun j => ∑ i, M i j * ∑ c, U i c * w i)) :=
  ⟨immo_fwd_vec_vec M u v, immo_fwd_mat_vec M U v hn hk,
   immo_adj_vec_vec M u w, immo_adj_mat_mat M U W hn hk,
   immo_adj_mat_vec M U w hn hk⟩

/-- Witness for C6 at a concrete instance. -/
theorem claim_C6_witness :
    inner_mat_mul_op (!![1, 2; 3, 4] : Matrix (Fin 2) (Fin 2) ℚ)
        (.mat 2 2 !![1, 0; 0, 1]) (some (.vec 2 ![3, 4])) false
      = .mat 2 2 (fun i c => (!![1, 0; 0, 1] : Matrix (Fin 2) (Fin 2) ℚ) i c
          * ∑ j, (!![1, 2; 3, 4] : Matrix (Fin 2) (Fin 2) ℚ) i j * ![3, 4] j) :=
  (claim_C6_directional_formulas 2 2 2 (by decide) (by decide)
    !![1, 2; 3, 4] ![1, 2] ![5, 6] ![3, 4] !![1, 0; 0, 1] !![1, 0; 0, 1]).2.1

/-- C5.  If the property has no model map, every mass-matrix derivative
operation (forward and inverse, all four supports) returns the `Zero`
sentinel; likewise if `u` or `v` is the `Zero` sentinel the operation
returns `Zero` (short-circuiting before the cached matrix is touched). -/
theorem claim_C5_zero_guards (s : PropSim nC nN nF nE nM) (u : DArr)
    (v : Option DArr) (adjoint : Bool) :
    (s.propMap = false →
      MccDeriv_prop s u v adjoint = .zero ∧ MnDeriv_prop s u v adjoint = .zero
      ∧ MfDeriv_prop s u v adjoint = .zero ∧ MeDeriv_prop s u v adjoint = .zero
      ∧ MccIDeriv_prop s u v adjoint = .zero ∧ MnIDeriv_prop s u v adjoint = .zero
      ∧ MfIDeriv_prop s u v adjoint = .zero ∧ MeIDeriv_prop s u v adjoint = .zero)
    ∧ (u = .zero ∨ v = some .zero →
      MccDeriv_prop s u v adjoint = .zero ∧ MnDeriv_prop s u v adjoint = .zero
      ∧ MfDeriv_prop s u v adjoint = .zero ∧ MeDeriv_prop s u v adjoint = .zero
      ∧ MccIDeriv_prop s u v adjoint = .zero ∧ MnIDeriv_prop s u v adjoint = .zero
      ∧ MfIDeriv_prop s u v adjoint = .zero ∧ MeIDeriv_prop s u v adjoint = .zero) := by
  constructor
  · intro h
    simp [MccDeriv_prop, MnDeriv_prop, MfDeriv_prop, MeDeriv_prop,
      MccIDeriv_prop, MnIDeriv_prop, MfIDeriv_prop, MeIDeriv_prop, h]
  · rintro (h | h) <;> subst h <;>
      simp [MccDeriv_prop, MnDeriv_prop, MfDeriv_prop, MeDeriv_prop,
        MccIDeriv_prop, MnIDeriv_prop, MfIDeriv_prop, MeIDeriv_prop,
        DArr.neg, mulMatD, DArr.isZero, optIsZero, ite_self]

/-- Witness for C5: a property without a map yields `Zero`, and a `Zero`
operand yields `Zero`. -/
theorem claim_C5_witness :
    MccDeriv_prop
      ({ cell_volumes := ![1, 1], aveN2CC := 1, get_face_inner_product := fun _ => 1,
         get_face_inner_product_inv := fun _ => 1, get_edge_inner_product := fun _ => 1,
         get_edge_inner_product_inv := fun _ => 1, face_ip_deriv := 1,
         edge_ip_deriv := 1, prop := ![1, 1], propMap := false,
         propDeriv := 1 } : PropSim 2 2 2 2 2)
      (.vec 2 ![1, 2]) (some (.vec 2 ![3, 4])) false = .zero :=
  ((claim_C5_zero_guards _ _ _ _).1 rfl).1

/-- C7.  The cell-center forward mass matrix is `diagonal(vol * prop)` with
inverse `diagonal(1/(vol * prop))`; the node forward mass matrix is
`diagonal(avgᵗ · (vol * prop))` with elementwise-reciprocal inverse; and on
the 4-cell unit-volume mesh with `sigma = [1,2,3,4]`,
`Mcc = diag([1,2,3,4])` and `MccI = diag([1, 1/2, 1/3, 1/4])`. -/
theorem claim_C7_construction_rules (s : PropSim nC nN nF nE nM) :
    (Mcc_prop s = Matrix.diagonal (fun i => s.cell_volumes i * s.prop i))
    ∧ (MccI_prop s = Matrix.diagonal (fun i => (s.cell_volumes i * s.prop i)⁻¹))
    ∧ (Mn_prop s = Matrix.diagonal
        (s.aveN2CC.transpose.mulVec (fun i => s.cell_volumes i * s.prop i)))
    ∧ (MnI_prop s = Matrix.diagonal (fun j =>
        (s.aveN2CC.transpose.mulVec (fun i => s.cell_volumes i * s.prop i) j)⁻¹))
    ∧ (Mcc_prop sim4 = Matrix.diagonal ![1, 2, 3, 4])
    ∧ (MccI_prop sim4 = Matrix.diagonal ![1, 1/2, 1/3, 1/4]) := by
  refine ⟨rfl, ?_, rfl, ?_, ?_, ?_⟩
  · simp [MccI_prop, one_div]
  · simp [MnI_prop, one_div]
  · funext i j
    fin_cases i <;> fin_cases j <;>
      norm_num [Mcc_prop, sim4, Matrix.diagonal, Matrix.of_apply]
  · funext i j
    fin_cases i <;> fin_cases j <;>
      norm_num [MccI_prop, sim4, Matrix.diagonal, Matrix.of_apply]

/-- C9.  When `tauMap` is absent, the combined-matrix derivative and
inverse-derivative return `Zero` for all `u`, `v`, in both modes, regardless
of the other properties' maps; and the combined derivative delegates
exclusively to the tau term. -/
theorem claim_C9_composite_fails_closed (s : CondSim nCc nFc nEc nMc)
    (u : DArr) (v : Option DArr) (adjoint : Bool) (htau : s.tauMap = false) :
    MeSigmaTauKappaDeriv s u v adjoint = .zero
    ∧ MeSigmaTauKappaIDeriv s u v adjoint = .zero
    ∧ (∀ (s2 : CondSim nCc nFc nEc nMc) (u2 : DArr) (v2 : Option DArr)
        (adj2 : Bool), MeSigmaTauKappaDeriv s2 u2 v2 adj2 = MeTauDeriv s2 u2 v2 adj2) :=
  ⟨by simp [MeSigmaTauKappaDeriv, MeTauDeriv, htau],
   by simp [MeSigmaTauKappaIDeriv, htau],
   fun _ _ _ _ => rfl⟩

/-- Witness for C9: with `tauMap` absent but `sigmaMap` and `kappaMap`
present, the composite derivative is `Zero`. -/
theorem claim_C9_witness :
    MeSigmaTauKappaDeriv
      ({ get_edge_inner_product := fun _ => 1,
         get_edge_inner_product_surface := fun _ => 1,
         get_edge_inner_product_line := fun _ => 1, sdinv := fun A => A,
         edge_ip_surface_deriv := 1, sigma := ![1, 1], sigmaMap := true,
         tau := ![1, 1], tauMap := false, tauDeriv := 1, kappa := ![1, 1],
         kappaMap := true, kappaiMap := false } : CondSim 2 2 2 2)
      (.vec 2 ![1, 2]) (some (.vec 2 ![3, 4])) false = .zero :=
  (claim_C9_composite_fails_closed _ (.vec 2 ![1, 2]) (some (.vec 2 ![3, 4]))
    false rfl).1

theorem lookup_clearSlots_of_mem (s : CacheState) (L : List String) (a : String)
    (h : a ∈ L) : lookupSlot (clearSlots s L) a = none := by
  simp [lookupSlot, clearSlots, h]

/-- C3.  Two consecutive reads of a cached slot with no intervening write
return the identical object, and the second read leaves the cache state
unchanged.  `readSlot` is the memoizing getter pattern shared by every mass
matrix and inverse mass matrix property (`MccProp`, `MfPropI`, ...); `a`
ranges over all stash names, hence over every (support, property, kind)
slot. -/
theorem claim_C3_cache_idempotent (s : CacheState) (a : String) :
    (readSlot (readSlot s a).2 a).1 = (readSlot s a).1
    ∧ (readSlot (readSlot s a).2 a).2 = (readSlot s a).2 := by
  cases h : s.slots a with
  | some o => constructor <;> simp [readSlot, h]
  | none => constructor <;> simp [readSlot, h]

/-- C2.  Assigning a value to `sigma` or `rho` (and, per the spec's account
of the props layer, assigning `sigmaMap` or `rhoMap`) clears every slot of
the registered invalidation lists, for any written value; a subsequent read
of a previously cached slot allocates a fresh object, distinct from the
cached one. -/
theorem claim_C2_invalidation_on_write (s : CacheState) (name nameM slot : String)
    (α : Type) (value : α)
    (hname : name = "sigma" ∨ name = "rho")
    (hnameM : nameM = "sigmaMap" ∨ nameM = "rhoMap")
    (hslot : slot ∈ clear_on_prop_update "Sigma" ++ clear_on_prop_update "Rho") :
    lookupSlot (elec_setattr s name value) slot = none
    ∧ lookupSlot (elec_setattr_with_maps s nameM value) slot = none
    ∧ (WFCache s → ∀ old, lookupSlot s slot = some old →
        (readSlot (elec_setattr s name value) slot).1 ≠ old) := by
  have hset : elec_setattr s name value
      = clearSlots s (clear_on_prop_update "Sigma" ++ clear_on_prop_update "Rho") := by
    rcases hname with h | h <;> simp [elec_setattr, h]
  have hsetM : elec_setattr_with_maps s nameM value
      = clearSlots s (clear_on_prop_update "Sigma" ++ clear_on_prop_update "Rho") := by
    rcases hnameM with h | h <;> simp [elec_setattr_with_maps, h]
  refine ⟨hset ▸ lookup_clearSlots_of_mem s _ slot hslot,
    hsetM ▸ lookup_clearSlots_of_mem s _ slot hslot, ?_⟩
  intro hwf old hold
  have hcleared : (elec_setattr s name value).slots slot = none :=
    hset ▸ lookup_clearSlots_of_mem s _ slot hslot
  have hid : (readSlot (elec_setattr s name value) slot).1
      = (elec_setattr s name value).nextId := by
    simp [readSlot, hcleared]
  have hnext : (elec_setattr s name value).nextId = s.nextId := by
    rw [hset]; rfl
  have hlt : old < s.nextId := hwf slot old hold
  rw [hid, hnext]
  omega

/-- Witness for C2 on a one-slot cache. -/
theorem claim_C2_witness :
    lookupSlot
      (elec_setattr
        ⟨fun b => if b = "_Mcc_Sigma" then some 0 else none, 1⟩ "sigma" (5 : ℕ))
      "_Mcc_Sigma" = none :=
  (claim_C2_invalidation_on_write
    ⟨fun b => if b = "_Mcc_Sigma" then some 0 else none, 1⟩ "sigma" "sigmaMap"
    "_Mcc_Sigma" ℕ 5 (Or.inl rfl) (Or.inl rfl) (by decide)).1

/-- C8.  The combined edge matrix is the exact sum of the per-property
matrices `MeSigma + MeTau + MeKappa`; its inverse is `sdinv` of that summed
matrix (not a sum of inverses); and reassigning any one of the five
contributing properties clears the composite's cached forward and inverse
slots. -/
theorem claim_C8_composite_additivity (s : CondSim nCc nFc nEc nMc)
    (cache : CacheState) (name : String) (α : Type) (value : α)
    (hname : name ∈ ["sigma", "rho", "tau", "kappa", "kappai"]) :
    MeSigmaTauKappa s = MeSigma s + MeTau s + MeKappa s
    ∧ MeSigmaTauKappaI s = s.sdinv (MeSigma s + MeTau s + MeKappa s)
    ∧ lookupSlot (cond_setattr cache name value) "__MeSigmaTauKappa" = none
    ∧ lookupSlot (cond_setattr cache name value) "__MeSigmaTauKappaI" = none := by
  have hset : cond_setattr cache name value = clearSlots cache
      (clear_on_prop_update "Sigma" ++ clear_on_prop_update "Rho" ++
       clear_on_surface_prop_update "Tau" ++ clear_on_line_prop_update "Kappa" ++
       clear_on_line_prop_update "Kappai" ++
       ["__MeSigmaTauKappa", "__MeSigmaTauKappaI", "__MeSigmaTauKappaDeriv"]) := by
    simp [cond_setattr, hname]
  refine ⟨rfl, rfl, ?_, ?_⟩
  · exact hset ▸ lookup_clearSlots_of_mem cache _ _ (by decide)
  · exact hset ▸ lookup_clearSlots_of_mem cache _ _ (by decide)

/-- Witness for C8: writing `kappa` clears the composite forward slot. -/
theorem claim_C8_witness :
    lookupSlot
      (cond_setattr
        ⟨fun b => if b = "__MeSigmaTauKappa" then some 0 else none, 1⟩
        "kappa" (5 : ℕ))
      "__MeSigmaTauKappa" = none :=
  (claim_C8_composite_additivity
    ({ get_edge_inner_product := fun _ => 1,
       get_edge_inner_product_surface := fun _ => 1,
       get_edge_inner_product_line := fun _ => 1, sdinv := fun A => A,
       edge_ip_surface_deriv := 1, sigma := ![1, 1], sigmaMap := true,
       tau := ![1, 1], tauMap := true, tauDeriv := 1, kappa := ![1, 1],
       kappaMap := false, kappaiMap := false } : CondSim 2 2 2 2)
    ⟨fun b => if b = "__MeSigmaTauKappa" then some 0 else none, 1⟩
    "kappa" ℕ 5 (by decide)).2.2.1

/-- C10.  Invalidation is coarser than the per-property lists: on the
conductance simulation a write to any one of the five properties clears the
stashes of all five plus the composite slots; on the electrical simulation a
write to `sigma` clears all of `rho`'s stashes, and vice versa. -/
theorem claim_C10_coarse_invalidation :
    (∀ (cache : CacheState) (name slot : String) (α : Type) (value : α),
      name ∈ ["sigma", "rho", "tau", "kappa", "kappai"] →
      slot ∈ (clear_on_prop_update "Sigma" ++ clear_on_prop_update "Rho" ++
        clear_on_surface_prop_update "Tau" ++ clear_on_line_prop_update "Kappa" ++
        clear_on_line_prop_update "Kappai" ++
        ["__MeSigmaTauKappa", "__MeSigmaTauKappaI", "__MeSigmaTauKappaDeriv"]) →
      lookupSlot (cond_setattr cache name value) slot = none)
    ∧ (∀ (cache : CacheState) (slot : String) (α : Type) (value : α),
      slot ∈ clear_on_prop_update "Rho" →
      lookupSlot (elec_setattr cache "sigma" value) slot = none)
    ∧ (∀ (cache : CacheState) (slot : String) (α : Type) (value : α),
      slot ∈ clear_on_prop_update "Sigma" →
      lookupSlot (elec_setattr cache "rho" value) slot = none) := by
  refine ⟨?_, ?_, ?_⟩
  · intro cache name slot α value hname hslot
    have hset : cond_setattr cache name value = clearSlots cache
        (clear_on_prop_update "Sigma" ++ clear_on_prop_update "Rho" ++
         clear_on_surface_prop_update "Tau" ++ clear_on_line_prop_update "Kappa" ++
         clear_on_line_prop_update "Kappai" ++
         ["__MeSigmaTauKappa", "__MeSigmaTauKappaI", "__MeSigmaTauKappaDeriv"]) := by
      simp [cond_setattr, hname]
    exact hset ▸ lookup_clearSlots_of_mem cache _ _ hslot
  · intro cache slot α value hslot
    have hset : elec_setattr cache "sigma" value = clearSlots cache
        (clear_on_prop_update "Sigma" ++ clear_on_prop_update "Rho") := by
      simp [elec_setattr]
    exact hset ▸ lookup_clearSlots_of_mem cache _ _ (by
      simp only [List.mem_append]; exact Or.inr hslot)
  · intro cache slot α value hslot
    have hset : elec_setattr cache "rho" value = clearSlots cache
        (clear_on_prop_update "Sigma" ++ clear_on_prop_update "Rho") := by
      simp [elec_setattr]
    exact hset ▸ lookup_clearSlots_of_mem cache _ _ (by
      simp only [List.mem_append]; exact Or.inl hslot)

/-- Witness for C10: writing `kappa` deletes sigma's cached forward matrix. -/
theorem claim_C10_witness :
    lookupSlot
      (cond_setattr
        ⟨fun b => if b = "_Mcc_Sigma" then some 0 else none, 1⟩ "kappa" (5 : ℕ))
      "_Mcc_Sigma" = none :=
  claim_C10_coarse_invalidation.1
    ⟨fun b => if b = "_Mcc_Sigma" then some 0 else none, 1⟩ "kappa" "_Mcc_Sigma"
    ℕ 5 (by decide) (by decide)

/-- The source's inverse-derivative for the cell-center support: after the
guards, `u = MI @ (MI @ -u)` followed by delegation to the forward
derivative. -/
theorem MccIDeriv_push (s : PropSim nC nN nF nE nM) (u : DArr) (v : Option DArr)
    (adjoint : Bool) :
    MccIDeriv_prop s u v adjoint
      = MccDeriv_prop s (mulMatD (MccI_prop s) (mulMatD (MccI_prop s) u.neg)) v adjoint := by
  by_cases h1 : s.propMap = false
  · simp [MccIDeriv_prop, MccDeriv_prop, h1]
  · by_cases hu : u.isZero = true
    · have hz : u = .zero := (isZero_iff u).mp hu
      subst hz
      simp [MccIDeriv_prop, MccDeriv_prop, h1, DArr.neg, mulMatD, DArr.isZero]
    · by_cases hv : optIsZero v = true
      · simp [MccIDeriv_prop, MccDeriv_prop, h1, hu, hv]
      · simp [MccIDeriv_prop, h1, hu, hv]

theorem MnIDeriv_push (s : PropSim nC nN nF nE nM) (u : DArr) (v : Option DArr)
    (adjoint : Bool) :
    MnIDeriv_prop s u v adjoint
      = MnDeriv_prop s (mulMatD (MnI_prop s) (mulMatD (MnI_prop s) u.neg)) v adjoint := by
  by_cases h1 : s.propMap = false
  · simp [MnIDeriv_prop, MnDeriv_prop, h1]
  · by_cases hu : u.isZero = true
    · have hz : u = .zero := (isZero_iff u).mp hu
      subst hz
      simp [MnIDeriv_prop, MnDeriv_prop, h1, DArr.neg, mulMatD, DArr.isZero]
    · by_cases hv : optIsZero v = true
      · simp [MnIDeriv_prop, MnDeriv_prop, h1, hu, hv]
      · simp [MnIDeriv_prop, h1, hu, hv]

theorem MfIDeriv_push (s : PropSim nC nN nF nE nM) (u : DArr) (v : Option DArr)
    (adjoint : Bool) :
    MfIDeriv_prop s u v adjoint
      = MfDeriv_prop s (mulMatD (MfI_prop s) (mulMatD (MfI_prop s) u.neg)) v adjoint := by
  by_cases h1 : s.propMap = false
  · simp [MfIDeriv_prop, MfDeriv_prop, h1]
  · by_cases hu : u.isZero = true
    · have hz : u = .zero := (isZero_iff u).mp hu
      subst hz
      simp [MfIDeriv_prop, MfDeriv_prop, h1, DArr.neg, mulMatD, DArr.isZero]
    · by_cases hv : optIsZero v = true
      · simp [MfIDeriv_prop, MfDeriv_prop, h1, hu, hv]
      · simp [MfIDeriv_prop, h1, hu, hv]

theorem MeIDeriv_push (s : PropSim nC nN nF nE nM) (u : DArr) (v : Option DArr)
    (adjoint : Bool) :
    MeIDeriv_prop s u v adjoint
      = MeDeriv_prop s (mulMatD (MeI_prop s) (mulMatD (MeI_prop s) u.neg)) v adjoint := by
  by_cases h1 : s.propMap = false
  · simp [MeIDeriv_prop, MeDeriv_prop, h1]
  · by_cases hu : u.isZero = true
    · have hz : u = .zero := (isZero_iff u).mp hu
      subst hz
      simp [MeIDeriv_prop, MeDeriv_prop, h1, DArr.neg, mulMatD, DArr.isZero]
    · by_cases hv : optIsZero v = true
      · simp [MeIDeriv_prop, MeDeriv_prop, h1, hu, hv]
      · simp [MeIDeriv_prop, h1, hu, hv]

/-- On the cell-center support the inverse is a diagonal matrix, and there
the source's evaluation agrees with the spec's `−Mi · (D(forward) · (Mi · u))`
in forward mode. -/
theorem MccIDeriv_matches_spec_formula (s : PropSim nC nN nF nE nM)
    (hmap : s.propMap = true) (u : Fin nC → ℚ) (v : Fin nM → ℚ) :
    MccIDeriv_prop s (.vec nC u) (some (.vec nM v)) false
      = MccIDeriv_spec_formula s (.vec nC u) (some (.vec nM v)) := by
  rw [MccIDeriv_push]
  simp only [MccIDeriv_spec_formula, MccI_prop, DArr.neg, mulMatD_diagonal_vec]
  simp [MccDeriv_prop, hmap, DArr.isZero, optIsZero]
  simp only [immo_fwd_vec_vec, mulMatD_diagonal_vec, DArr.neg]
  congr 1
  funext i
  ring

/-- Same coincidence for the node support, whose inverse is also diagonal. -/
theorem MnIDeriv_matches_spec_formula (s : PropSim nC nN nF nE nM)
    (hmap : s.propMap = true) (u : Fin nN → ℚ) (v : Fin nM → ℚ) :
    MnIDeriv_prop s (.vec nN u) (some (.vec nM v)) false
      = MnIDeriv_spec_formula s (.vec nN u) (some (.vec nM v)) := by
  rw [MnIDeriv_push]
  simp only [MnIDeriv_spec_formula, MnI_prop, DArr.neg, mulMatD_diagonal_vec]
  simp [MnDeriv_prop, hmap, DArr.isZero, optIsZero]
  simp only [immo_fwd_vec_vec, mulMatD_diagonal_vec, DArr.neg]
  congr 1
  funext i
  ring

/-- C4 (amended).  For every support, the inverse-matrix derivative is never
recomputed independently: it is the forward-derivative method evaluated at
`MI @ (MI @ -u)` with the same `v` and adjoint flag.  For the cell-center
and node supports, whose inverses are diagonal, this coincides in forward
mode with the spec's formula `−Mi · (D(forward) · (Mi · u))`; the
counterexample below shows the spec's formula is not what the code computes
for a non-diagonal (edge) inverse. -/
theorem claim_C4_inverse_derivative_via_forward (s : PropSim nC nN nF nE nM)
    (u : DArr) (v : Option DArr) (adjoint : Bool) (hmap : s.propMap = true)
    (uc : Fin nC → ℚ) (un : Fin nN → ℚ) (vm : Fin nM → ℚ) :
    (MccIDeriv_prop s u v adjoint
      = MccDeriv_prop s (mulMatD (MccI_prop s) (mulMatD (MccI_prop s) u.neg)) v adjoint)
    ∧ (MnIDeriv_prop s u v adjoint
      = MnDeriv_prop s (mulMatD (MnI_prop s) (mulMatD (MnI_prop s) u.neg)) v adjoint)
    ∧ (MfIDeriv_prop s u v adjoint
      = MfDeriv_prop s (mulMatD (MfI_prop s) (mulMatD (MfI_prop s) u.neg)) v adjoint)
    ∧ (MeIDeriv_prop s u v adjoint
      = MeDeriv_prop s (mulMatD (MeI_prop s) (mulMatD (MeI_prop s) u.neg)) v adjoint)
    ∧ (MccIDeriv_prop s (.vec nC uc) (some (.vec nM vm)) false
      = MccIDeriv_spec_formula s (.vec nC uc) (some (.vec nM vm)))
    ∧ (MnIDeriv_prop s (.vec nN un) (some (.vec nM vm)) false
      = MnIDeriv_spec_formula s (.vec nN un) (some (.vec nM vm))) :=
  ⟨MccIDeriv_push s u v adjoint, MnIDeriv_push s u v adjoint,
   MfIDeriv_push s u v adjoint, MeIDeriv_push s u v adjoint,
   MccIDeriv_matches_spec_formula s hmap uc vm,
   MnIDeriv_matches_spec_formula s hmap un vm⟩

/-- Witness for C4 (amended) at a concrete instance. -/
theorem claim_C4_witness :
    MccIDeriv_prop cexSim (.vec 2 ![1, 2]) (some (.vec 2 ![1, 0])) false
      = MccDeriv_prop cexSim
          (mulMatD (MccI_prop cexSim)
            (mulMatD (MccI_prop cexSim) (DArr.vec 2 ![1, 2]).neg))
          (some (.vec 2 ![1, 0])) false :=
  (claim_C4_inverse_derivative_via_forward cexSim (.vec 2 ![1, 2])
    (some (.vec 2 ![1, 0])) false rfl ![1, 2] ![1, 2] ![1, 0]).1

/-- Counterexample for C4 as stated: on the edge support with a non-diagonal
inverse inner product, the code's `MI @ (MI @ -u)` evaluation differs from
the spec's `−Mi · (D(forward) · (Mi · u))`: at `u = [0,1]`, `v = [1,0]` the
code returns `[-2, 0]` while the spec's formula gives `[-1, 0]`. -/
theorem claim_C4_counterexample :
    MeIDeriv_prop cexSim (.vec 2 ![0, 1]) (some (.vec 2 ![1, 0])) false
      ≠ MeIDeriv_spec_formula cexSim (.vec 2 ![0, 1]) (some (.vec 2 ![1, 0])) := by
  intro h
  have h0 : DArr.vecAt
        (MeIDeriv_prop cexSim (.vec 2 ![0, 1]) (some (.vec 2 ![1, 0])) false) 0
      = DArr.vecAt
        (MeIDeriv_spec_formula cexSim (.vec 2 ![0, 1]) (some (.vec 2 ![1, 0]))) 0 := by
    rw [h]
  have hL : DArr.vecAt
      (MeIDeriv_prop cexSim (.vec 2 ![0, 1]) (some (.vec 2 ![1, 0])) false) 0
      = -2 := by
    norm_num [MeIDeriv_prop, MeDeriv_prop, MeI_prop, cexSim, DArr.neg,
      mulMatD_vec, DArr.isZero, optIsZero, immo_fwd_vec_vec, DArr.vecAt,
      Fin.sum_univ_two, Matrix.one_apply, Matrix.one_mul, Matrix.cons_val_zero,
      Matrix.cons_val_one, Matrix.head_cons, Matrix.of_apply]
  have hR : DArr.vecAt
      (MeIDeriv_spec_formula cexSim (.vec 2 ![0, 1]) (some (.vec 2 ![1, 0]))) 0
      = -1 := by
    norm_num [MeIDeriv_spec_formula, MeIDeriv_prop, MeDeriv_prop, MeI_prop,
      cexSim, DArr.neg, mulMatD_vec, DArr.isZero, optIsZero, immo_fwd_vec_vec,
      DArr.vecAt, Fin.sum_univ_two, Matrix.one_apply, Matrix.one_mul,
      Matrix.cons_val_zero, Matrix.cons_val_one, Matrix.head_cons,
      Matrix.of_apply]
  rw [hL, hR] at h0
  norm_num at h0
